import Mathlib

/-!
Verification of the ensemble simulation orchestration engine of the RHEAS
repository (VIC model interface `rheas/vic/vic.py`, ensemble coordinator
`src/ensemble.py`, nowcast driver `src/nowcast.py`).

Each Python function relevant to the checked claims is shallowly embedded as an
executable Lean definition; machine-level details that the claims do not touch
(actual SQL text, GDAL raster encoding, file paths) are abstracted into explicit
parameters, while the control flow, arithmetic and data reshaping of the source
are translated verbatim.  Dates are represented by their day offset from a fixed
epoch, so a date range [startdate, enddate] becomes the interval
[startDay, endDay] of naturals, and raster cell values are rationals.
-/

namespace RHEAS

/-! ## Forcing gap-filling: `VIC._handleMissingData` (rheas/vic/vic.py)

`getForcings` returns a list of (gid, fdate, value) triples per variable;
`_handleMissingData` first re-queries whole pixels that are absent from the
result (the tile-unaware `st_nearestvalue` query, modelled by the `retry`
parameter), and then, if the count is still not `pixels * ndays`, regroups the
triples per pixel and reindexes every incomplete pixel series onto the full
date range with pandas `interpolate(method='pad')` (forward fill).  A pandas
NaN is modelled by `Option.none`. -/

structure FEntry where
  gid : Nat
  day : Nat
  val : Option ℚ
deriving DecidableEq, Repr

/-- Value of the series of `pix` at day `t`: the value of the first entry with
that day, `none` when no entry has that day (a reindexing NaN). -/
def lookupDay (pix : List FEntry) (t : Nat) : Option ℚ :=
  match pix.find? (fun e => e.day == t) with
  | some e => e.val
  | none => none

/-- Forward fill (`interpolate(method='pad')`): the value at `t` is the value at
the greatest day `u ≤ t` whose entry holds a non-NaN value. -/
def padAt (pix : List FEntry) (t : Nat) : Option ℚ :=
  (List.range (t + 1)).reverse.findSome? (fun u => lookupDay pix u)

/-- `p.reindex(pd.date_range(startdate, enddate)).interpolate(method='pad')`
followed by re-emitting one triple per day. -/
def reindexPad (g : Nat) (ndays : Nat) (pix : List FEntry) : List FEntry :=
  (List.range ndays).map (fun t => FEntry.mk g t (padAt pix t))

/-- First fallback of `_handleMissingData`: when the count check fails, every
pixel with no triple at all is re-queried against the whole raster
(`st_nearestvalue`), and the query results are appended. -/
def fillMissingPixels (gids : List Nat) (ndays : Nat) (retry : Nat → List FEntry)
    (data : List FEntry) : List FEntry :=
  if data.length = gids.length * ndays then data
  else data ++ (gids.filter (fun g => !(data.any (fun e => e.gid == g)))).flatMap retry

/-- Second fallback of `_handleMissingData`: when the count check still fails,
the triples are regrouped per pixel (in order of appearance of the distinct
gids) and every pixel series shorter than `ndays` is reindexed onto the full
date range with forward fill. -/
def fillMissingDays (gids : List Nat) (ndays : Nat) (data : List FEntry) : List FEntry :=
  if data.length = gids.length * ndays then data
  else
    ((data.map FEntry.gid).dedup).flatMap (fun g =>
      let pix := data.filter (fun e => e.gid == g)
      if pix.length < ndays then reindexPad g ndays pix else pix)

/-- `VIC._handleMissingData`: the two fallbacks in sequence. -/
def handleMissingData (gids : List Nat) (ndays : Nat) (retry : Nat → List FEntry)
    (data : List FEntry) : List FEntry :=
  fillMissingDays gids ndays (fillMissingPixels gids ndays retry data)

/-! ## ESP year selection: `Ensemble._ESP` (src/ensemble.py)

The candidate years are screened by

    for year in years:
        ...
        if not bool(cur.rowcount):
            years.remove(year)

which mutates the list while iterating over it.  A Python list iterator keeps a
position index that is advanced on every step regardless of removals, so the
element immediately after a removed one is never examined.  `pyFilterRemove`
reproduces those semantics exactly: `valid year` models whether the database
holds a precipitation record at `startdate(year) + ndays`. -/

def pyFilterRemove (valid : Nat → Bool) (ys : List Nat) (i : Nat) : List Nat :=
  if h : i < ys.length then
    if valid (ys.get ⟨i, h⟩) then pyFilterRemove valid ys (i + 1)
    else pyFilterRemove valid (ys.erase (ys.get ⟨i, h⟩)) (i + 1)
  else ys
termination_by ys.length - i
decreasing_by
  · omega
  · have hm : (ys.erase (ys.get ⟨i, h⟩)).length = ys.length - 1 :=
      List.length_erase_of_mem (ys.get_mem i h)
    omega

/-- `while len(years) < self.nens: years += years`.  The loop diverges on an
empty list in Python as well; the nonemptiness hypothesis mirrors the
`len(years) < 1` exit that precedes it. -/
def cycleYears (nens : Nat) (ys : List Nat) (hne : ys ≠ []) : List Nat :=
  if ys.length < nens then
    cycleYears nens (ys ++ ys) (by
      intro hc
      exact hne (List.append_eq_nil.mp hc).1)
  else ys
termination_by nens - ys.length
decreasing_by
  have hp : 0 < ys.length := List.length_pos.mpr hne
  simp only [List.length_append]
  omega

/-- `Ensemble._ESP` year assignment: screen the candidate years with the
remove-while-iterating loop, abort when none survive, otherwise cycle the list
up to the ensemble size and assign `years[e]` to member `e`.  `random.shuffle`
permutes the list in place uniformly at random; it is omitted here since the
membership and validity properties under check are order-insensitive. -/
def espYears (valid : Nat → Bool) (years : List Nat) (nens : Nat) :
    Except String (List Nat) :=
  let ys := pyFilterRemove valid years 0
  if h : ys = [] then
    Except.error "Not enough years in climatology to produce ESP forecast for selected dates"
  else
    Except.ok ((cycleYears nens ys h).take nens)

/-! ## Model process invocation: `VIC.run` (rheas/vic/vic.py) and
`Ensemble.run` (src/ensemble.py)

`VIC.run` spawns the executable with `subprocess.Popen`, then reads its merged
stdout/stderr line by line until EOF (which occurs when the process exits) and
logs each line at debug level.  The `Popen` return code is never inspected and
no exception is raised for a non-zero exit.  `Ensemble.run` starts one OS
process per member and joins them all, again without looking at any exit
code. -/

structure ProcResult where
  outLines : List String
  exitCode : Int
deriving DecidableEq, Repr

structure RunOutcome where
  logged : List String
  failureRaised : Bool
deriving DecidableEq, Repr

/-- `VIC.run`: consume (and log) the whole output stream, surface nothing. -/
def vicRun (p : ProcResult) : RunOutcome :=
  { logged := p.outLines, failureRaised := false }

/-- `Ensemble.run`: one process per member, join all. -/
def ensembleRun (ps : List ProcResult) : List RunOutcome :=
  ps.map vicRun

/-! ## Tile-id reconciliation: `VIC.writeToDB` (rheas/vic/vic.py)

After the bulk load, the freshly loaded rows are re-partitioned with
`((rid + ntiles) % ntiles) + 1`. -/

def reconcileTile (ntiles rid : Nat) : Nat :=
  ((rid + ntiles) % ntiles) + 1

/-! ## Output persistence: `VIC.writeToDB` (rheas/vic/vic.py) and
`Ensemble.save` (src/ensemble.py)

A raster table row is (rid, fdate, layer, ensemble, rast); the layer and
ensemble columns are optional (`Option`), with `none` for SQL NULL.  A table
also records which optional columns exist.  `writeToDB` receives the 4-D
output array as its dimensions (`ndates` = data.shape[0], `nlyr` =
data.shape[1]) together with the cell contents `data`; `tilesPerImg` is the
number of tiles `raster2pgsql -t auto` splits each per-(date, layer) GeoTIFF
into, and the loader's serial `rid` numbers the tiles consecutively across the
files in (date, layer, tile) order.  In Python `ensemble=False` is encoded as
`ens = 0` (the decorated ensemble saves pass `e + 1 ≥ 1`). -/

structure Row where
  rid : Nat
  day : Nat
  layer : Option Nat
  ens : Option Nat
  rast : ℚ
deriving DecidableEq, Repr

structure Table where
  hasEnsCol : Bool
  hasLayerCol : Bool
  rows : List Row
deriving DecidableEq, Repr

structure SaveCfg where
  startDay : Nat
  endDay : Nat
  ndates : Nat
  nlyr : Nat
  tilesPerImg : Nat
  data : Nat → Nat → ℚ
  doInit : Bool
  ens : Nat
  skips : Nat

/-- `startdate ≤ d ≤ enddate`. -/
def inSpan (s e d : Nat) : Bool := decide (s ≤ d) && decide (d ≤ e)

/-- `alter table add column ensemble int; update set ensemble=0`: first
ensemble-tagged save on a pre-existing table creates the column and back-fills
zero. -/
def backfillEns (T : Table) : Table :=
  { T with hasEnsCol := true, rows := T.rows.map (fun r => { r with ens := some 0 }) }

/-- Modelled from the spec: `dbio.deleteRasters` (module `dbio`, not among the
sources) deletes the stored raster rows of a table at one date; `writeToDB`
calls it for every date from startdate to enddate when `initialize` is set, so
prior rows in the target date range are deleted first. -/
def deleteRange (c : SaveCfg) (T : Table) : Table :=
  { T with rows := T.rows.filter (fun r => !(inSpan c.startDay c.endDay r.day)) }

/-- The `temp` table produced by `raster2pgsql` plus the `fdate`/`layer`
columns parsed back out of the GeoTIFF filenames: `data = data[skipsave:]`,
one image per remaining (date, layer), each split into `tilesPerImg` tiles
with a consecutive serial `rid` starting at 1. -/
def tempRows (c : SaveCfg) : List Row :=
  (List.range (c.ndates - c.skips)).flatMap (fun t =>
    (List.range c.nlyr).flatMap (fun lyr =>
      (List.range c.tilesPerImg).map (fun k =>
        Row.mk ((t * c.nlyr + lyr) * c.tilesPerImg + k + 1)
          (c.startDay + c.skips + t)
          (if 1 < c.nlyr then some (lyr + 1) else none)
          none
          (c.data (c.skips + t) lyr))))

/-- `insert into name.table (rid, fdate[, layer], rast) select
((rid+ntiles) % ntiles)+1, ... from temp` with
`ntiles = count(temp) / data.shape[0]`. -/
def insertedRows (c : SaveCfg) : List Row :=
  let n := (c.ndates - c.skips) * c.nlyr * c.tilesPerImg
  let ntiles := n / (c.ndates - c.skips)
  (tempRows c).map (fun r => { r with rid := reconcileTile ntiles r.rid })

/-- `update set ensemble = e where ensemble is null`. -/
def tagRows (e : Nat) (rs : List Row) : List Row :=
  rs.map (fun r => if r.ens = none then { r with ens := some e } else r)

/-- `if bool(ensemble): update ... set ensemble = int(ensemble) where ensemble
is null`. -/
def applyEnsTag (e : Nat) (T : Table) : Table :=
  if e = 0 then T else { T with rows := tagRows e T.rows }

/-- First block of `writeToDB`: when the table exists, an ensemble index is
being saved and the ensemble column is missing, add it and back-fill zero. -/
def ensColStep (e : Nat) (db : Option Table) : Option Table :=
  match db with
  | some T => if e ≠ 0 ∧ T.hasEnsCol = false then some (backfillEns T) else some T
  | none => none

/-- Second block of `writeToDB`: delete the date range when the table exists
and `initialize` is set, otherwise create the table with the optional layer
and ensemble columns. -/
def initStep (c : SaveCfg) (db : Option Table) : Table :=
  match db with
  | some T => if c.doInit then deleteRange c T else T
  | none => Table.mk (decide (c.ens ≠ 0)) (decide (1 < c.nlyr)) []

/-- `VIC.writeToDB`: ensemble-column upkeep, range delete / table creation,
bulk load with tile-id reconciliation, ensemble tagging.  (Index re-creation
has no effect on the row set and is omitted.) -/
def writeToDB (c : SaveCfg) (db : Option Table) : Table :=
  let T2 := initStep c (ensColStep c.ens db)
  applyEnsTag c.ens { T2 with rows := T2.rows ++ insertedRows c }

/-- The save configuration `Ensemble.save` hands member `e`: `model.writeToDB`
is decorated by `write_wrapper`, which passes ensemble index `e + 1` and drops
the `skipsave` argument (so it defaults to 0), and `initialize` is forced to
False for every member after the first. -/
def memberCfg (base : SaveCfg) (doInit : Bool) (e : Nat) : SaveCfg :=
  { base with ens := e + 1, doInit := e == 0 && doInit, skips := 0 }

/-- The `for e in range(self.nens)` loop of `Ensemble.save` for the `db`
destination: `saveMembers base doInit db k` is the store state after members
0..k-1 have saved. -/
def saveMembers (base : SaveCfg) (doInit : Bool) (db : Option Table) : Nat → Option Table
  | 0 => db
  | k + 1 => some (writeToDB (memberCfg base doInit k) (saveMembers base doInit db k))

/-! ## Output decoding: `VIC.saveToDB` read loop (rheas/vic/vic.py)

`saveToDB` lays an (nrows x ncols) grid over the domain's bounding box, fills
the output array with the no-data sentinel, and then, for every simulated
pixel `c`, reads that pixel's per-pixel output file with `pd.read_csv` and
writes its time series into the (row, col) cell computed from the pixel's
coordinates.  The 4-D array is modelled for one variable and one layer as a
function of (time, row, col); the pixel files are a partial map from (lat,
lon) to the file's time series, and a missing file makes `pd.read_csv` raise
`IOError`, modelled as `Except.error`.  Coordinates are rationals; Python's
`int(...)` truncation coincides with the floor on these nonnegative
arguments. -/

def listMax (l : List ℚ) : ℚ :=
  match l with
  | [] => 0
  | x :: xs => xs.foldl max x

def listMin (l : List ℚ) : ℚ :=
  match l with
  | [] => 0
  | x :: xs => xs.foldl min x

/-- `i = int((max(lat) + res/2 - lat_c) / res)`. -/
def cellRow (lats : List ℚ) (res lat : ℚ) : Nat :=
  (⌊(listMax lats + res / 2 - lat) / res⌋).toNat

/-- `j = int((lon_c - min(lon) + res/2) / res)`. -/
def cellCol (lons : List ℚ) (res lon : ℚ) : Nat :=
  (⌊(lon - listMin lons + res / 2) / res⌋).toNat

/-- One iteration of the per-pixel read loop: open pixel `c`'s output file
(raising when it does not exist) and overwrite the pixel's grid cell for every
time step. -/
def readStep (lats lons : List ℚ) (res : ℚ) (files : ℚ × ℚ → Option (Nat → ℚ))
    (acc : Nat → Nat → Nat → ℚ) (c : Nat) : Except String (Nat → Nat → Nat → ℚ) :=
  match files (lats.getD c 0, lons.getD c 0) with
  | none => Except.error "IOError: missing per-pixel output file"
  | some f =>
      Except.ok (fun t i j =>
        if i = cellRow lats res (lats.getD c 0) ∧ j = cellCol lons res (lons.getD c 0)
        then f t else acc t i j)

/-- The read phase of `saveToDB`: with no simulated pixels nothing is read
("No pixels simulated", `none`); otherwise the loop starts from the array
pre-filled with the sentinel and reads every pixel in order. -/
def readOutput (lats lons : List ℚ) (res nodata : ℚ)
    (files : ℚ × ℚ → Option (Nat → ℚ)) :
    Except String (Option (Nat → Nat → Nat → ℚ)) :=
  if lats.isEmpty || lons.isEmpty then Except.ok none
  else
    ((List.range lats.length).foldlM (readStep lats lons res files)
      (fun _ _ _ => nodata)).map (fun a => some a)

/-! ## Forcing configuration guard: `VIC.getForcings` (rheas/vic/vic.py)

The options dictionary is modelled as an association list; `'k' in options`
becomes a key lookup. -/

def lookupOpt (opts : List (String × String)) (k : String) : Option String :=
  (opts.find? (fun p => p.fst == k)).map Prod.snd

/-- The entry guard and dataset-list construction of `VIC.getForcings`:  when
any of the `precip`, `temperature`, `wind` keys is absent the run is aborted
(`log.error` + `sys.exit()`, modelled as `Except.error`); otherwise the four
raster table names are assembled. -/
def getForcingsSelect (opts : List (String × String)) : Except String (List String) :=
  match lookupOpt opts "precip", lookupOpt opts "temperature", lookupOpt opts "wind" with
  | some p, some t, some w =>
      Except.ok ["precip." ++ p, "tmax." ++ t, "tmin." ++ t, "wind." ++ w]
  | _, _, _ => Except.error "No data source provided for VIC forcings"

/-! ## Assimilation update step (src/nowcast.py, src/ensemble.py)

In `runEnsembleVIC` the per-window update is

    data, alat, alon, agid = assimilate(options, t, models)
    if bool(data):
        models.updateStateFiles(data, alat, alon, agid)

A state snapshot file is modelled as its list of lines (header first). -/

/-- Modelled from the spec: `assimilate` (module `assimilation`, not among the
sources) returns, per model state variable, the observation-derived correction
values; at an update time with zero available observations it returns an empty
collection.  An observation is (variable, pixel, value). -/
def assimilate (obs : List (String × Nat × ℚ)) : List (String × List (Nat × ℚ)) :=
  ((obs.map Prod.fst).dedup).map
    (fun v => (v, (obs.filter (fun o => o.fst == v)).map Prod.snd))

/-- Modelled from the spec: `Ensemble.updateStateFiles` reads every member's
binary state snapshot, overwrites the records of pixels with corrections, and
rewrites the file preserving its header line (the `vic.state` helpers are not
among the sources). -/
def updateStateFiles (data : List (String × List (Nat × ℚ)))
    (files : List (List String)) : List (List String) :=
  files.map (fun f =>
    match f with
    | [] => []
    | header :: body =>
        header :: (body ++ data.map (fun d => toString d.snd.length ++ " " ++ d.fst)))

/-- The per-window correction step of `runEnsembleVIC`: state files are
rewritten only when the assimilation returned a nonempty correction set. -/
def assimStep (obs : List (String × Nat × ℚ)) (files : List (List String)) :
    List (List String) :=
  let data := assimilate obs
  if data.isEmpty then files else updateStateFiles data files

end RHEAS

namespace RHEAS

/-- C3 counterexample: with exit code 1 (a failing model run) `VIC.run`
surfaces no failure, contradicting the claim that a non-zero exit is an
instance-level failure rather than silently ignored. -/
theorem C3_counterexample :
    (ProcResult.mk [] 1).exitCode ≠ 0 ∧
      (vicRun (ProcResult.mk [] 1)).failureRaised = false := by
  constructor
  · decide
  · rfl

/-- C3 (amended): `VIC.run` blocks until the model's output stream is
exhausted, i.e. until the process exits, logging every line; but the exit
status is never examined, so no failure is surfaced for any exit code, and the
ensemble runner joins every member without surfacing a failure either. -/
theorem C3_run_blocks_but_ignores_exit (p : ProcResult) (ps : List ProcResult) :
    (vicRun p).logged = p.outLines ∧ (vicRun p).failureRaised = false ∧
      ∀ o ∈ ensembleRun ps, o.failureRaised = false := by
  refine ⟨rfl, rfl, ?_⟩
  intro o ho
  rcases List.mem_map.mp ho with ⟨q, _, rfl⟩
  rfl

/-- C9: at an update time with zero available observations the assimilation
step is a pure passthrough: every member's state snapshot file is identical
before and after the step, and the step is a total function (no error). -/
theorem C9_zero_obs_passthrough (files : List (List String)) :
    assimStep [] files = files := rfl

/-- C1 counterexample: a domain of one pixel over a 2-day window whose raw
query result is empty and whose whole-raster nearest-value retry also returns
nothing yields 0 entries, not `pixels * days = 2`: the gap-filled series does
not always have `pixels * days` entries regardless of input completeness. -/
theorem C1_counterexample :
    (handleMissingData [1] 2 (fun _ => []) []).length ≠ 1 * 2 := by decide

/-- Length of a flat map when every piece has the same length. -/
theorem flatMap_length_const {α β : Type} (l : List α) (f : α → List β) (c : Nat)
    (h : ∀ a ∈ l, (f a).length = c) : (l.flatMap f).length = l.length * c := by
  induction l with
  | nil => simp
  | cons a t ih =>
      simp only [List.flatMap_cons, List.length_append, List.length_cons]
      rw [h a (List.mem_cons_self a t), ih (fun b hb => h b (List.mem_cons_of_mem a hb))]
      ring

/-- Forward fill at a missing day `d + 1` picks up the value present at day
`d`. -/
theorem padAt_of_prev (pix : List FEntry) (d : Nat) (v : ℚ)
    (hnone : lookupDay pix (d + 1) = none) (hsome : lookupDay pix d = some v) :
    padAt pix (d + 1) = some v := by
  unfold padAt
  rw [List.range_succ, List.reverse_append, List.range_succ, List.reverse_append]
  simp [hnone, hsome]

/-- C1 (amended): provided that, after the whole-raster nearest-value retry,
every domain pixel contributes at least one triple, every triple belongs to a
domain pixel, lies inside the time window, and no (pixel, day) pair is
duplicated, `_handleMissingData` returns exactly `pixels * ndays` triples; and
whenever the per-pixel reindexing runs, a day missing from an incomplete
pixel's series whose previous day carries value `v` is forward-filled with `v`.
(The unamended claim fails when a pixel is absent from both the raw result and
the retry, see the counterexample.) -/
theorem C1_count_and_forward_fill (gids : List Nat) (ndays : Nat)
    (retry : Nat → List FEntry) (data d1 : List FEntry)
    (hd1 : fillMissingPixels gids ndays retry data = d1)
    (hnd : gids.Nodup)
    (hcov : ∀ g ∈ gids, ∃ e ∈ d1, e.gid = g)
    (hsub : ∀ e ∈ d1, e.gid ∈ gids)
    (hday : ∀ e ∈ d1, e.day < ndays)
    (hkey : (d1.map (fun e => (e.gid, e.day))).Nodup) :
    (handleMissingData gids ndays retry data).length = gids.length * ndays ∧
    ∀ g d v, d + 1 < ndays → d1.length ≠ gids.length * ndays →
      (∃ e ∈ d1, e.gid = g) →
      (d1.filter (fun e => e.gid == g)).length < ndays →
      lookupDay (d1.filter (fun e => e.gid == g)) (d + 1) = none →
      lookupDay (d1.filter (fun e => e.gid == g)) d = some v →
      FEntry.mk g (d + 1) (some v) ∈ handleMissingData gids ndays retry data := by
  have hm : handleMissingData gids ndays retry data = fillMissingDays gids ndays d1 := by
    rw [handleMissingData, hd1]
  rw [hm]
  constructor
  · by_cases hlen : d1.length = gids.length * ndays
    · rw [fillMissingDays, if_pos hlen]
      exact hlen
    · rw [fillMissingDays, if_neg hlen]
      have hksnd : ((d1.map FEntry.gid).dedup).Nodup := List.nodup_dedup _
      have hmem : ∀ g, g ∈ (d1.map FEntry.gid).dedup ↔ g ∈ gids := by
        intro g
        rw [List.mem_dedup, List.mem_map]
        constructor
        · rintro ⟨e, he, rfl⟩
          exact hsub e he
        · intro hg
          rcases hcov g hg with ⟨e, he, hge⟩
          exact ⟨e, he, hge⟩
      have hlenks : ((d1.map FEntry.gid).dedup).length = gids.length :=
        (List.perm_of_nodup_nodup_toFinset_eq hksnd hnd
          (List.toFinset.ext fun x => hmem x)).length_eq
      rw [flatMap_length_const _ _ ndays ?_, hlenks]
      intro g _
      show (if (d1.filter (fun e => e.gid == g)).length < ndays
        then reindexPad g ndays (d1.filter (fun e => e.gid == g))
        else d1.filter (fun e => e.gid == g)).length = ndays
      by_cases hlt : (d1.filter (fun e => e.gid == g)).length < ndays
      · rw [if_pos hlt]
        simp [reindexPad]
      · rw [if_neg hlt]
        have hpixsub : (d1.filter (fun e => e.gid == g)).Sublist d1 := List.filter_sublist d1
        have hknd : ((d1.filter (fun e => e.gid == g)).map
            (fun e => (e.gid, e.day))).Nodup := hkey.sublist (hpixsub.map _)
        have hfinsub : ((d1.filter (fun e => e.gid == g)).map
            (fun e => (e.gid, e.day))).toFinset ⊆
            (Finset.range ndays).image (fun d => (g, d)) := by
          intro x hx
          rcases List.mem_map.mp (List.mem_toFinset.mp hx) with ⟨e, he, rfl⟩
          have hge : e.gid = g := by simpa using List.of_mem_filter he
          have hde : e.day < ndays := hday e (List.mem_of_mem_filter he)
          exact Finset.mem_image.mpr ⟨e.day, Finset.mem_range.mpr hde, by rw [hge]⟩
        have hle : (d1.filter (fun e => e.gid == g)).length ≤ ndays := by
          have h1 : ((d1.filter (fun e => e.gid == g)).map
              (fun e => (e.gid, e.day))).toFinset.card =
              (d1.filter (fun e => e.gid == g)).length := by
            rw [List.toFinset_card_of_nodup hknd, List.length_map]
          have h2 := Finset.card_le_card hfinsub
          have h3 : ((Finset.range ndays).image (fun d => (g, d))).card ≤ ndays :=
            le_trans Finset.card_image_le (by simp)
          omega
        omega
  · intro g d v hdn hlen hex hlt hnone hsome
    rw [fillMissingDays, if_neg hlen]
    have hgk : g ∈ (d1.map FEntry.gid).dedup := by
      rw [List.mem_dedup, List.mem_map]
      rcases hex with ⟨e, he, hge⟩
      exact ⟨e, he, hge⟩
    refine List.mem_flatMap.mpr ⟨g, hgk, ?_⟩
    show FEntry.mk g (d + 1) (some v) ∈
      (if (d1.filter (fun e => e.gid == g)).length < ndays
        then reindexPad g ndays (d1.filter (fun e => e.gid == g))
        else d1.filter (fun e => e.gid == g))
    rw [if_pos hlt, reindexPad]
    refine List.mem_map.mpr ⟨d + 1, List.mem_range.mpr hdn, ?_⟩
    rw [padAt_of_prev _ _ _ hnone hsome]

/-- C1 witness: two pixels over a 3-day window; pixel 2's series is missing
day 1 while day 0 holds 5; the fetch returns exactly 2 * 3 entries and the
missing day is forward-filled with 5. -/
theorem C1_witness :
    (handleMissingData [1, 2] 3 (fun _ => [])
        [FEntry.mk 1 0 (some 1), FEntry.mk 1 1 (some 2), FEntry.mk 1 2 (some 3),
          FEntry.mk 2 0 (some 5), FEntry.mk 2 2 (some 6)]).length = 2 * 3 ∧
      FEntry.mk 2 1 (some 5) ∈ handleMissingData [1, 2] 3 (fun _ => [])
        [FEntry.mk 1 0 (some 1), FEntry.mk 1 1 (some 2), FEntry.mk 1 2 (some 3),
          FEntry.mk 2 0 (some 5), FEntry.mk 2 2 (some 6)] := by
  have h := C1_count_and_forward_fill [1, 2] 3 (fun _ => [])
    [FEntry.mk 1 0 (some 1), FEntry.mk 1 1 (some 2), FEntry.mk 1 2 (some 3),
      FEntry.mk 2 0 (some 5), FEntry.mk 2 2 (some 6)]
    [FEntry.mk 1 0 (some 1), FEntry.mk 1 1 (some 2), FEntry.mk 1 2 (some 3),
      FEntry.mk 2 0 (some 5), FEntry.mk 2 2 (some 6)]
    (by decide) (by decide) (by decide) (by decide) (by decide) (by decide)
  exact ⟨h.1, h.2 2 0 5 (by decide) (by decide) (by decide) (by decide)
    (by decide) (by decide)⟩

/-- C2 (code bug): the year screening loop `for year in years: ...
years.remove(year)` mutates the list while iterating, so the element right
after a removed one is never examined.  With candidate years [2000, 2001] both
having an insufficient trailing record (`valid` is everywhere false), 2000 is
removed but 2001 is skipped by the iterator, survives the screening, and is
assigned to both ensemble members. -/
theorem C2_invalid_year_assigned :
    espYears (fun _ => false) [2000, 2001] 2 = Except.ok [2001, 2001] ∧
      (fun _ : Nat => false) 2001 = false := by
  have h1 : pyFilterRemove (fun _ => false) [2000, 2001] 0 = [2001] := by
    rw [pyFilterRemove]
    norm_num [List.erase]
    rw [pyFilterRemove]
    norm_num
  have h2 : cycleYears 2 [2001] (by decide) = [2001, 2001] := by
    rw [cycleYears]
    norm_num
    rw [cycleYears]
    norm_num
  refine ⟨?_, rfl⟩
  simp only [espYears, h1]
  rw [dif_neg (by decide)]
  rw [h2]
  rfl

/-- Two tables are equal when all fields agree. -/
theorem Table.eq_of_fields {T U : Table} (h1 : T.hasEnsCol = U.hasEnsCol)
    (h2 : T.hasLayerCol = U.hasLayerCol) (h3 : T.rows = U.rows) : T = U := by
  cases T
  cases U
  simp_all

theorem tagRows_append (e : Nat) (a b : List Row) :
    tagRows e (a ++ b) = tagRows e a ++ tagRows e b := List.map_append _ a b

/-- Tagging touches only NULL-ensemble rows. -/
theorem tagRows_eq_self (e : Nat) (rs : List Row) (h : ∀ r ∈ rs, r.ens ≠ none) :
    tagRows e rs = rs := by
  have hpt : ∀ r ∈ rs, (if r.ens = none then { r with ens := some e } else r) = id r := by
    intro r hr
    rw [if_neg (h r hr)]
    rfl
  rw [tagRows, List.map_congr_left hpt, List.map_id]

/-- After tagging, no row has a NULL ensemble. -/
theorem mem_tagRows_ens_ne_none (e : Nat) (rs : List Row) (r : Row)
    (hr : r ∈ tagRows e rs) : r.ens ≠ none := by
  rcases List.mem_map.mp hr with ⟨r0, _, rfl⟩
  by_cases h0 : r0.ens = none
  · rw [if_pos h0]
    simp
  · rw [if_neg h0]
    exact h0

theorem tagRows_idem (e : Nat) (rs : List Row) :
    tagRows e (tagRows e rs) = tagRows e rs :=
  tagRows_eq_self e (tagRows e rs) (fun r hr => mem_tagRows_ens_ne_none e rs r hr)

/-- Filtering a mapped list. -/
theorem filter_map_comm {α β : Type} (f : α → β) (p : β → Bool) (l : List α) :
    (l.map f).filter p = (l.filter (fun a => p (f a))).map f := by
  induction l with
  | nil => rfl
  | cons a t ih =>
      simp only [List.map_cons, List.filter_cons]
      cases h : p (f a) <;> simp [h, ih]

/-- Tagging commutes with the date-range filter. -/
theorem tagRows_filter (e s en : Nat) (rs : List Row) :
    (tagRows e rs).filter (fun r => !(inSpan s en r.day)) =
      tagRows e (rs.filter (fun r => !(inSpan s en r.day))) := by
  rw [tagRows, filter_map_comm, tagRows]
  have hpt : ∀ r ∈ rs,
      (!(inSpan s en (if r.ens = none then { r with ens := some e } else r).day)) =
        !(inSpan s en r.day) := by
    intro r _
    by_cases h0 : r.ens = none
    · rw [if_pos h0]
    · rw [if_neg h0]
  rw [List.filter_congr hpt]

theorem filter_idem {α : Type} (p : α → Bool) (l : List α) :
    (l.filter p).filter p = l.filter p := by
  induction l with
  | nil => rfl
  | cons a t ih =>
      simp only [List.filter_cons]
      cases h : p a <;> simp [List.filter_cons, h, ih]

/-- Shape of the bulk-loaded rows: NULL ensemble, date inside the (skipped)
simulation window. -/
theorem insertedRows_shape (c : SaveCfg) (r : Row) (hr : r ∈ insertedRows c) :
    r.ens = none ∧ ∃ t, t < c.ndates - c.skips ∧ r.day = c.startDay + c.skips + t := by
  simp only [insertedRows] at hr
  rcases List.mem_map.mp hr with ⟨r0, hr0, rfl⟩
  simp only [tempRows] at hr0
  rcases List.mem_flatMap.mp hr0 with ⟨t, ht, hr1⟩
  rcases List.mem_flatMap.mp hr1 with ⟨lyr, _, hr2⟩
  rcases List.mem_map.mp hr2 with ⟨k, _, rfl⟩
  exact ⟨rfl, t, List.mem_range.mp ht, rfl⟩

/-- When the array spans no more than the simulation window, every
bulk-loaded row's date lies within [startdate, enddate]. -/
theorem insertedRows_inSpan (c : SaveCfg) (hspan : c.startDay + c.ndates ≤ c.endDay + 1)
    (r : Row) (hr : r ∈ insertedRows c) :
    inSpan c.startDay c.endDay r.day = true := by
  rcases (insertedRows_shape c r hr).2 with ⟨t, ht, hday⟩
  simp only [inSpan, Bool.and_eq_true, decide_eq_true_eq]
  omega

theorem applyEnsTag_hasEnsCol (e : Nat) (T : Table) :
    (applyEnsTag e T).hasEnsCol = T.hasEnsCol := by
  unfold applyEnsTag
  by_cases h : e = 0 <;> simp [h]

theorem applyEnsTag_hasLayerCol (e : Nat) (T : Table) :
    (applyEnsTag e T).hasLayerCol = T.hasLayerCol := by
  unfold applyEnsTag
  by_cases h : e = 0 <;> simp [h]

theorem applyEnsTag_rows (e : Nat) (T : Table) :
    (applyEnsTag e T).rows = if e = 0 then T.rows else tagRows e T.rows := by
  unfold applyEnsTag
  by_cases h : e = 0 <;> simp [h]

theorem writeToDB_hasEnsCol (c : SaveCfg) (db : Option Table) :
    (writeToDB c db).hasEnsCol =
      ((match db with | some T => T.hasEnsCol | none => false) || decide (c.ens ≠ 0)) := by
  cases db with
  | none =>
      simp [writeToDB, ensColStep, initStep, applyEnsTag_hasEnsCol]
  | some T =>
      by_cases he : c.ens ≠ 0 <;> by_cases hcol : T.hasEnsCol = false <;>
        by_cases hi : c.doInit <;>
          simp [writeToDB, ensColStep, initStep, applyEnsTag_hasEnsCol, backfillEns,
            deleteRange, he, hcol, hi]

theorem writeToDB_hasLayerCol (c : SaveCfg) (db : Option Table) :
    (writeToDB c db).hasLayerCol =
      (match db with | some T => T.hasLayerCol | none => decide (1 < c.nlyr)) := by
  cases db with
  | none =>
      simp [writeToDB, ensColStep, initStep, applyEnsTag_hasLayerCol]
  | some T =>
      by_cases he : c.ens ≠ 0 <;> by_cases hcol : T.hasEnsCol = false <;>
        by_cases hi : c.doInit <;>
          simp [writeToDB, ensColStep, initStep, applyEnsTag_hasLayerCol, backfillEns,
            deleteRange, he, hcol, hi]

/-- C4: a save with `initialize` first deletes every raster row dated inside
[startdate, enddate] and only then inserts, so performing the identical save
twice leaves exactly the state of the second (equal to the first) save: no
duplicated rows, no leftovers. -/
theorem C4_idempotent_initialized_save (c : SaveCfg) (db : Option Table)
    (hinit : c.doInit = true) (hspan : c.startDay + c.ndates ≤ c.endDay + 1) :
    writeToDB c (some (writeToDB c db)) = writeToDB c db := by
  have hens2 : ensColStep c.ens (some (writeToDB c db)) = some (writeToDB c db) := by
    by_cases he : c.ens = 0
    · simp [ensColStep, he]
    · have hcol : (writeToDB c db).hasEnsCol = true := by
        rw [writeToDB_hasEnsCol]
        simp [he]
      simp [ensColStep, hcol]
  have hT1rows : (writeToDB c db).rows =
      (if c.ens = 0
        then (initStep c (ensColStep c.ens db)).rows ++ insertedRows c
        else tagRows c.ens ((initStep c (ensColStep c.ens db)).rows ++ insertedRows c)) := by
    conv_lhs => rw [writeToDB]
    rw [applyEnsTag_rows]
  have hold : ∀ r ∈ (initStep c (ensColStep c.ens db)).rows,
      (!(inSpan c.startDay c.endDay r.day)) = true := by
    cases hdb : ensColStep c.ens db with
    | none => simp [initStep]
    | some T =>
        intro r hr
        simp only [initStep, hinit, if_true, deleteRange] at hr
        simpa using List.of_mem_filter hr
  have hfold : (initStep c (ensColStep c.ens db)).rows.filter
      (fun r => !(inSpan c.startDay c.endDay r.day)) =
      (initStep c (ensColStep c.ens db)).rows := List.filter_eq_self.mpr hold
  have hfins : (insertedRows c).filter
      (fun r => !(inSpan c.startDay c.endDay r.day)) = [] := by
    refine List.filter_eq_nil_iff.mpr ?_
    intro r hr
    rw [insertedRows_inSpan c hspan r hr]
    simp
  have hdel : (writeToDB c db).rows.filter
      (fun r => !(inSpan c.startDay c.endDay r.day)) =
      (if c.ens = 0
        then (initStep c (ensColStep c.ens db)).rows
        else tagRows c.ens ((initStep c (ensColStep c.ens db)).rows)) := by
    rw [hT1rows]
    by_cases he : c.ens = 0
    · rw [if_pos he, if_pos he, List.filter_append, hfold, hfins, List.append_nil]
    · rw [if_neg he, if_neg he]
      rw [tagRows_filter, List.filter_append, hfold, hfins, List.append_nil]
  refine Table.eq_of_fields ?_ ?_ ?_
  · rw [writeToDB_hasEnsCol]
    show ((writeToDB c db).hasEnsCol || decide (c.ens ≠ 0)) = (writeToDB c db).hasEnsCol
    rw [writeToDB_hasEnsCol]
    simp [Bool.or_assoc]
  · rw [writeToDB_hasLayerCol]
  · have h2 : (writeToDB c (some (writeToDB c db))).rows =
        (if c.ens = 0
          then (initStep c (ensColStep c.ens (some (writeToDB c db)))).rows ++ insertedRows c
          else tagRows c.ens
            ((initStep c (ensColStep c.ens (some (writeToDB c db)))).rows ++ insertedRows c)) := by
      conv_lhs => rw [writeToDB]
      rw [applyEnsTag_rows]
    rw [h2, hens2]
    have hT2' : (initStep c (some (writeToDB c db))).rows =
        (writeToDB c db).rows.filter (fun r => !(inSpan c.startDay c.endDay r.day)) := by
      simp [initStep, hinit, deleteRange]
    rw [hT2', hdel, hT1rows]
    by_cases he : c.ens = 0
    · rw [if_pos he, if_pos he, if_pos he]
    · rw [if_neg he, if_neg he, if_neg he, tagRows_append, tagRows_append, tagRows_idem]

/-- C4 witness: a concrete two-day save over a table holding one stale row
inside the window and one outside, saved twice with `initialize`. -/
theorem C4_witness :
    ((SaveCfg.mk 10 11 2 1 1 (fun _ _ => 3) true 1 0).doInit = true ∧
      (SaveCfg.mk 10 11 2 1 1 (fun _ _ => 3) true 1 0).startDay +
        (SaveCfg.mk 10 11 2 1 1 (fun _ _ => 3) true 1 0).ndates ≤
        (SaveCfg.mk 10 11 2 1 1 (fun _ _ => 3) true 1 0).endDay + 1) ∧
      writeToDB (SaveCfg.mk 10 11 2 1 1 (fun _ _ => 3) true 1 0)
        (some (writeToDB (SaveCfg.mk 10 11 2 1 1 (fun _ _ => 3) true 1 0)
          (some (Table.mk false false
            [Row.mk 1 10 none none 2, Row.mk 1 5 none none 2])))) =
      writeToDB (SaveCfg.mk 10 11 2 1 1 (fun _ _ => 3) true 1 0)
        (some (Table.mk false false
          [Row.mk 1 10 none none 2, Row.mk 1 5 none none 2])) :=
  ⟨⟨rfl, by decide⟩,
    C4_idempotent_initialized_save (SaveCfg.mk 10 11 2 1 1 (fun _ _ => 3) true 1 0)
      (some (Table.mk false false [Row.mk 1 10 none none 2, Row.mk 1 5 none none 2]))
      rfl (by decide)⟩

/-- C10: in an ensemble save to the store only member 0 (ensemble index 1)
keeps the caller's `initialize` flag; every later member is forced to save
with initialize disabled, so the date-range deletion can run only in the first
member's save, and a later member's save appends to the stored rows without
deleting the rows written by the earlier members (whose ensemble tags are
already set). -/
theorem C10_only_first_member_deletes (base : SaveCfg) (doInit : Bool) (e : Nat)
    (T : Table) (hpos : 0 < e) (hcol : T.hasEnsCol = true)
    (hall : ∀ r ∈ T.rows, r.ens ≠ none) :
    (memberCfg base doInit e).doInit = false ∧
      (memberCfg base doInit 0).doInit = doInit ∧
      ∃ extra, (writeToDB (memberCfg base doInit e) (some T)).rows = T.rows ++ extra := by
  have hmc : (memberCfg base doInit e).doInit = false := by
    cases e with
    | zero => omega
    | succ k => simp [memberCfg]
  refine ⟨hmc, by simp [memberCfg], ?_⟩
  refine ⟨tagRows (e + 1) (insertedRows (memberCfg base doInit e)), ?_⟩
  conv_lhs => rw [writeToDB]
  have h1 : ensColStep (memberCfg base doInit e).ens (some T) = some T := by
    simp [ensColStep, hcol]
  rw [h1]
  have h2 : initStep (memberCfg base doInit e) (some T) = T := by
    simp [initStep, hmc]
  rw [h2, applyEnsTag_rows]
  rw [if_neg (by simp [memberCfg] : ¬(memberCfg base doInit e).ens = 0)]
  rw [tagRows_append, tagRows_eq_self _ _ hall]
  rfl

/-- C10 witness: with two stored tagged rows, member index 1 (ensemble 2)
saves without deleting them. -/
theorem C10_witness :
    (0 < 1 ∧ (Table.mk true false [Row.mk 1 0 none (some 1) 2]).hasEnsCol = true ∧
      ∀ r ∈ (Table.mk true false [Row.mk 1 0 none (some 1) 2]).rows, r.ens ≠ none) ∧
      ((memberCfg (SaveCfg.mk 0 1 2 1 1 (fun _ _ => 1) true 0 0) true 1).doInit = false ∧
        (memberCfg (SaveCfg.mk 0 1 2 1 1 (fun _ _ => 1) true 0 0) true 0).doInit = true ∧
        ∃ extra,
          (writeToDB (memberCfg (SaveCfg.mk 0 1 2 1 1 (fun _ _ => 1) true 0 0) true 1)
            (some (Table.mk true false [Row.mk 1 0 none (some 1) 2]))).rows =
          (Table.mk true false [Row.mk 1 0 none (some 1) 2]).rows ++ extra) :=
  ⟨⟨by decide, rfl, by decide⟩,
    C10_only_first_member_deletes (SaveCfg.mk 0 1 2 1 1 (fun _ _ => 1) true 0 0) true 1
      (Table.mk true false [Row.mk 1 0 none (some 1) 2]) (by decide) rfl (by decide)⟩

theorem range_filter_beq (n m : Nat) :
    (List.range n).filter (fun t => t == m) = if m < n then [m] else [] := by
  induction n with
  | zero => simp
  | succ k ih =>
      rw [List.range_succ, List.filter_append, ih]
      by_cases h : m < k
      · rw [if_pos h, if_pos (Nat.lt_succ_of_lt h)]
        have hkm : (k == m) = false := by
          simp only [beq_eq_false_iff_ne, ne_eq]
          omega
        simp [List.filter_cons, hkm]
      · by_cases h2 : m = k
        · subst h2
          rw [if_neg h, if_pos (Nat.lt_succ_self m)]
          simp [List.filter_cons]
        · rw [if_neg h, if_neg (by omega)]
          have hkm : (k == m) = false := by
            simp only [beq_eq_false_iff_ne, ne_eq]
            omega
          simp [List.filter_cons, hkm]

theorem flatMap_filter_comm {α β : Type} (l : List α) (f : α → List β) (p : β → Bool) :
    (l.flatMap f).filter p = l.flatMap (fun a => (f a).filter p) := by
  induction l with
  | nil => rfl
  | cons a t ih => simp [List.filter_append, ih]

theorem flatMap_map_comm {α β γ : Type} (l : List α) (f : α → List β) (g : β → γ) :
    (l.flatMap f).map g = l.flatMap (fun a => (f a).map g) := by
  induction l with
  | nil => rfl
  | cons a t ih => simp [ih]

/-- Tagging commutes with a fixed-date filter. -/
theorem tagRows_filter_day (e d : Nat) (rs : List Row) :
    (tagRows e rs).filter (fun r => r.day == d) =
      tagRows e (rs.filter (fun r => r.day == d)) := by
  rw [tagRows, filter_map_comm, tagRows]
  have hpt : ∀ r ∈ rs,
      ((if r.ens = none then { r with ens := some e } else r).day == d) = (r.day == d) := by
    intro r _
    by_cases h0 : r.ens = none
    · rw [if_pos h0]
    · rw [if_neg h0]
  rw [List.filter_congr hpt]

/-- Zero back-filling commutes with the date-range filter. -/
theorem backfill_filter (s en : Nat) (rs : List Row) :
    (rs.map (fun r => { r with ens := some 0 })).filter
        (fun r => !(inSpan s en r.day)) =
      (rs.filter (fun r => !(inSpan s en r.day))).map
        (fun r => { r with ens := some 0 }) := by
  rw [filter_map_comm]

/-- With a single layer and untiled images (and no skipped dates), the bulk
load inserts exactly one row per date, all with reconciled tile id 1. -/
theorem insertedRows_single (c : SaveCfg) (h1 : c.nlyr = 1) (h2 : c.tilesPerImg = 1)
    (h0 : c.skips = 0) :
    insertedRows c = (List.range c.ndates).map
      (fun t => Row.mk 1 (c.startDay + t) none none (c.data t 0)) := by
  by_cases hnd : c.ndates = 0
  · simp [insertedRows, tempRows, h0, hnd]
  · have hdiv : c.ndates / c.ndates = 1 := Nat.div_self (Nat.pos_of_ne_zero hnd)
    have hr1 : List.range 1 = [0] := by decide
    have hfm : ∀ (l : List Nat) (g : Nat → Row), (l.flatMap fun t => [g t]) = l.map g := by
      intro l g
      induction l with
      | nil => rfl
      | cons a t ih => simp [ih]
    simp only [insertedRows, tempRows, h1, h2, h0, reconcileTile, hdiv, Nat.mod_one,
      hr1, List.flatMap_cons, List.flatMap_nil, List.append_nil, List.map_cons,
      List.map_nil, Nat.mul_one, Nat.add_zero, Nat.zero_add, Nat.sub_zero]
    rw [hfm, List.map_map]
    exact List.map_congr_left (fun t _ => rfl)

theorem flatMap_congr_mem {α β : Type} (l : List α) (f g : α → List β)
    (h : ∀ a ∈ l, f a = g a) : l.flatMap f = l.flatMap g := by
  induction l with
  | nil => rfl
  | cons a t ih =>
      simp only [List.flatMap_cons]
      rw [h a (List.mem_cons_self a t), ih (fun b hb => h b (List.mem_cons_of_mem a hb))]

theorem flatMap_singleton_eq_map {α β : Type} (l : List α) (g : α → β) :
    (l.flatMap fun a => [g a]) = l.map g := by
  induction l with
  | nil => rfl
  | cons a t ih => simp [ih]

/-- A non-first member's save (`initialize` off, ensemble column already
present, no NULL-ensemble rows stored) appends its tagged bulk load. -/
theorem writeToDB_append_only (c : SaveCfg) (T : Table) (hcolT : T.hasEnsCol = true)
    (hmc : c.doInit = false) (hne : c.ens ≠ 0)
    (hall : ∀ r ∈ T.rows, r.ens ≠ none) :
    writeToDB c (some T) =
      Table.mk true T.hasLayerCol (T.rows ++ tagRows c.ens (insertedRows c)) := by
  refine Table.eq_of_fields ?_ ?_ ?_
  · rw [writeToDB_hasEnsCol]
    simp [hcolT]
  · rw [writeToDB_hasLayerCol]
  · conv_lhs => rw [writeToDB]
    rw [applyEnsTag_rows, if_neg hne]
    have he : ensColStep c.ens (some T) = some T := by
      simp [ensColStep, hcolT]
    rw [he]
    have hi : initStep c (some T) = T := by
      simp [initStep, hmc]
    rw [hi, tagRows_append, tagRows_eq_self _ _ hall]

/-- The first member's save on a pre-existing table without the ensemble
column: add and zero-fill the column, delete the date range, bulk-load and
tag. -/
theorem writeToDB_first_member (c : SaveCfg) (T : Table) (hcolT : T.hasEnsCol = false)
    (hmc : c.doInit = true) (hne : c.ens ≠ 0) :
    writeToDB c (some T) = Table.mk true T.hasLayerCol
      (((T.rows.filter (fun r => !(inSpan c.startDay c.endDay r.day))).map
          (fun r => { r with ens := some 0 })) ++ tagRows c.ens (insertedRows c)) := by
  refine Table.eq_of_fields ?_ ?_ ?_
  · rw [writeToDB_hasEnsCol]
    simp [hne]
  · rw [writeToDB_hasLayerCol]
  · conv_lhs => rw [writeToDB]
    rw [applyEnsTag_rows, if_neg hne]
    have he : ensColStep c.ens (some T) = some (backfillEns T) := by
      simp [ensColStep, hcolT, hne]
    rw [he]
    have hi : initStep c (some (backfillEns T)) = deleteRange c (backfillEns T) := by
      simp [initStep, hmc]
    rw [hi]
    simp only [deleteRange, backfillEns]
    rw [backfill_filter, tagRows_append]
    congr 1
    refine tagRows_eq_self _ _ ?_
    intro r hr
    rcases List.mem_map.mp hr with ⟨r0, _, rfl⟩
    simp

/-- Store state after the first `k ≥ 1` members of an ensemble save to the
store: the ensemble column exists, the pre-existing rows outside the date
range survive back-filled with ensemble 0, and member `e < k` contributed its
bulk load tagged with ensemble index `e + 1`. -/
theorem saveMembers_state (base : SaveCfg) (T0 : Table) (k : Nat)
    (hk : 1 ≤ k) (hcol : T0.hasEnsCol = false) :
    saveMembers base true (some T0) k = some (Table.mk true T0.hasLayerCol
      ((T0.rows.filter (fun r => !(inSpan base.startDay base.endDay r.day))).map
          (fun r => { r with ens := some 0 }) ++
        (List.range k).flatMap (fun e =>
          tagRows (e + 1) (insertedRows (memberCfg base true e))))) := by
  induction k with
  | zero => omega
  | succ k ih =>
      by_cases hk0 : k = 0
      · subst hk0
        show some (writeToDB (memberCfg base true 0) (some T0)) = _
        rw [writeToDB_first_member (memberCfg base true 0) T0 hcol
          (by simp [memberCfg]) (by simp [memberCfg])]
        have hr1 : List.range 1 = [0] := by decide
        simp [memberCfg, hr1]
      · have hk1 : 1 ≤ k := Nat.one_le_iff_ne_zero.mpr hk0
        show some (writeToDB (memberCfg base true k)
          (saveMembers base true (some T0) k)) = _
        rw [ih hk1]
        have hmc : (memberCfg base true k).doInit = false := by
          cases k with
          | zero => omega
          | succ m => simp [memberCfg]
        rw [writeToDB_append_only (memberCfg base true k) _ rfl hmc
          (by simp [memberCfg]) ?hall]
        case hall =>
          intro r hr
          rcases List.mem_append.mp hr with hra | hrb
          · rcases List.mem_map.mp hra with ⟨r0, _, rfl⟩
            simp
          · rcases List.mem_flatMap.mp hrb with ⟨e, _, hre⟩
            exact mem_tagRows_ens_ne_none _ _ _ hre
        simp [memberCfg, List.range_succ, List.flatMap_append, List.append_assoc]

/-- C6: after an ensemble save of N members to the store (single-layer
variable, untiled images), every persisted output row carries a 1-based
ensemble index: querying the table at any date of the window returns exactly N
rows, one per index 1..N; and the first ensemble-tagged save on a pre-existing
table creates the ensemble column and back-fills 0 for the surviving
pre-existing non-ensemble rows. -/
theorem C6_ensemble_tagging (base : SaveCfg) (N : Nat) (T0 : Table) (d : Nat)
    (hN : 1 ≤ N) (h1 : base.nlyr = 1) (h2 : base.tilesPerImg = 1)
    (hnd : base.ndates = base.endDay + 1 - base.startDay)
    (hse : base.startDay ≤ base.endDay)
    (hcol : T0.hasEnsCol = false)
    (hd1 : base.startDay ≤ d) (hd2 : d ≤ base.endDay) :
    ∃ T, saveMembers base true (some T0) N = some T ∧
      T.hasEnsCol = true ∧
      ((T.rows.filter (fun r => r.day == d)).map (fun r => r.ens)) =
        (List.range N).map (fun e => some (e + 1)) ∧
      T.rows.filter (fun r => !(inSpan base.startDay base.endDay r.day)) =
        (T0.rows.filter (fun r => !(inSpan base.startDay base.endDay r.day))).map
          (fun r => { r with ens := some 0 }) := by
  have hins : ∀ e : Nat, insertedRows (memberCfg base true e) =
      (List.range base.ndates).map
        (fun t => Row.mk 1 (base.startDay + t) none none (base.data t 0)) := by
    intro e
    simpa [memberCfg] using insertedRows_single (memberCfg base true e)
      (by simp [memberCfg, h1]) (by simp [memberCfg, h2]) (by simp [memberCfg])
  refine ⟨_, saveMembers_state base T0 N hN hcol, rfl, ?_, ?_⟩
  · -- per-date content: one row per ensemble index
    have hA : ((T0.rows.filter (fun r => !(inSpan base.startDay base.endDay r.day))).map
        (fun r => { r with ens := some 0 })).filter (fun r => r.day == d) = [] := by
      refine List.filter_eq_nil_iff.mpr ?_
      intro r hr
      rcases List.mem_map.mp hr with ⟨r0, hr0, rfl⟩
      have hout := List.of_mem_filter hr0
      have hprop : ¬(base.startDay ≤ r0.day ∧ r0.day ≤ base.endDay) := by
        intro hc
        have hsp : inSpan base.startDay base.endDay r0.day = true := by
          simp [inSpan, hc.1, hc.2]
        rw [hsp] at hout
        simp at hout
      simp only [beq_iff_eq]
      intro hdd
      exact hprop (by omega)
    have hB1 : ∀ e : Nat,
        (tagRows (e + 1) (insertedRows (memberCfg base true e))).filter
          (fun r => r.day == d) =
        [Row.mk 1 d none (some (e + 1)) (base.data (d - base.startDay) 0)] := by
      intro e
      rw [tagRows_filter_day, hins e, filter_map_comm]
      have hpt : ∀ t ∈ List.range base.ndates,
          ((Row.mk 1 (base.startDay + t) none none (base.data t 0)).day == d) =
            (t == d - base.startDay) := by
        intro t _
        by_cases hc : base.startDay + t = d
        · have h3 : t = d - base.startDay := by omega
          subst h3
          simp [hc]
        · have h3 : ¬t = d - base.startDay := by omega
          simp [hc, h3]
      rw [List.filter_congr hpt, range_filter_beq,
        if_pos (by omega : d - base.startDay < base.ndates)]
      simp [tagRows, Nat.add_sub_cancel' hd1]
    rw [List.filter_append, hA, List.nil_append, flatMap_filter_comm,
      flatMap_congr_mem _ _ _ (fun e _ => hB1 e), flatMap_singleton_eq_map,
      List.map_map]
    exact List.map_congr_left (fun e _ => rfl)
  · -- back-fill of the surviving pre-existing rows
    rw [List.filter_append]
    have hA2 : ((T0.rows.filter
        (fun r => !(inSpan base.startDay base.endDay r.day))).map
          (fun r => { r with ens := some 0 })).filter
            (fun r => !(inSpan base.startDay base.endDay r.day)) =
        (T0.rows.filter (fun r => !(inSpan base.startDay base.endDay r.day))).map
          (fun r => { r with ens := some 0 }) := by
      refine List.filter_eq_self.mpr ?_
      intro r hr
      rcases List.mem_map.mp hr with ⟨r0, hr0, rfl⟩
      have h5 := List.of_mem_filter hr0
      simpa using h5
    have hB2 : ((List.range N).flatMap (fun e =>
        tagRows (e + 1) (insertedRows (memberCfg base true e)))).filter
          (fun r => !(inSpan base.startDay base.endDay r.day)) = [] := by
      refine List.filter_eq_nil_iff.mpr ?_
      intro r hr
      rcases List.mem_flatMap.mp hr with ⟨e, _, hre⟩
      rcases List.mem_map.mp hre with ⟨r0, hr0, rfl⟩
      rw [hins e] at hr0
      rcases List.mem_map.mp hr0 with ⟨t, ht, rfl⟩
      have ht' : t < base.ndates := List.mem_range.mp ht
      simp only [↓reduceIte]
      simp [inSpan]
      omega
    rw [hA2, hB2, List.append_nil]

/-- C6 witness: two members saved over days 0..1 onto a table holding one
untagged row at day 9: day 1 afterwards holds exactly the rows of ensembles 1
and 2, and the day-9 row survives back-filled with ensemble 0. -/
theorem C6_witness :
    ∃ T, saveMembers (SaveCfg.mk 0 1 2 1 1 (fun _ _ => 1) true 0 0) true
        (some (Table.mk false false [Row.mk 1 9 none none 7])) 2 = some T ∧
      T.hasEnsCol = true ∧
      ((T.rows.filter (fun r => r.day == 1)).map (fun r => r.ens)) =
        (List.range 2).map (fun e => some (e + 1)) ∧
      T.rows.filter (fun r => !(inSpan 0 1 r.day)) =
        ((Table.mk false false [Row.mk 1 9 none none 7]).rows.filter
          (fun r => !(inSpan 0 1 r.day))).map (fun r => { r with ens := some 0 }) :=
  C6_ensemble_tagging (SaveCfg.mk 0 1 2 1 1 (fun _ _ => 1) true 0 0) 2
    (Table.mk false false [Row.mk 1 9 none none 7]) 1 (by decide) rfl rfl
    (by decide) (by decide) rfl (by decide) (by decide)

/-- C7 counterexample: a domain of one pixel whose per-pixel output file is
absent makes the read raise (the missing file propagates out of `pd.read_csv`
as an IOError), contradicting the claim that the pixel's cell is left at the
sentinel without raising. -/
theorem C7_counterexample :
    readOutput [0] [0] 1 (-9999) (fun _ => none) =
      Except.error "IOError: missing per-pixel output file" := rfl

/-- C7 (amended): a grid cell that no simulated pixel maps to keeps the
sentinel no-data value, and when every simulated pixel's output file exists
the read succeeds; but a simulated pixel whose output file is absent raises an
IOError out of the read instead of leaving that cell at the sentinel (see the
counterexample). -/
theorem C7_sentinel_for_unmapped_cells (lats lons : List ℚ) (res nodata : ℚ)
    (files : ℚ × ℚ → Option (Nat → ℚ))
    (hne : lats.isEmpty = false) (hne2 : lons.isEmpty = false)
    (hfiles : ∀ c, c < lats.length → files (lats.getD c 0, lons.getD c 0) ≠ none) :
    ∃ g, readOutput lats lons res nodata files = Except.ok (some g) ∧
      ∀ t i j, (∀ c, c < lats.length →
          ¬(i = cellRow lats res (lats.getD c 0) ∧
            j = cellCol lons res (lons.getD c 0))) →
        g t i j = nodata := by
  have key : ∀ (cs : List Nat) (acc : Nat → Nat → Nat → ℚ),
      (∀ c ∈ cs, files (lats.getD c 0, lons.getD c 0) ≠ none) →
      ∃ g, cs.foldlM (readStep lats lons res files) acc = Except.ok g ∧
        ∀ t i j, (∀ c ∈ cs,
            ¬(i = cellRow lats res (lats.getD c 0) ∧
              j = cellCol lons res (lons.getD c 0))) →
          g t i j = acc t i j := by
    intro cs
    induction cs with
    | nil =>
        intro acc _
        exact ⟨acc, rfl, fun t i j _ => rfl⟩
    | cons c cs ih =>
        intro acc hcs
        rcases hf : files (lats.getD c 0, lons.getD c 0) with _ | f
        · exact absurd hf (hcs c (List.mem_cons_self c cs))
        · have hstep : readStep lats lons res files acc c =
              Except.ok (fun t i j =>
                if i = cellRow lats res (lats.getD c 0) ∧
                    j = cellCol lons res (lons.getD c 0)
                then f t else acc t i j) := by
            rw [readStep, hf]
          rcases ih (fun t i j =>
              if i = cellRow lats res (lats.getD c 0) ∧
                  j = cellCol lons res (lons.getD c 0)
              then f t else acc t i j)
            (fun c2 hc2 => hcs c2 (List.mem_cons_of_mem c hc2)) with ⟨g, hg, hgu⟩
          refine ⟨g, ?_, ?_⟩
          · rw [List.foldlM_cons, hstep]
            exact hg
          · intro t i j hu
            rw [hgu t i j (fun c2 hc2 => hu c2 (List.mem_cons_of_mem c hc2))]
            rw [if_neg (hu c (List.mem_cons_self c cs))]
  rcases key (List.range lats.length) (fun _ _ _ => nodata)
      (fun c hc => hfiles c (List.mem_range.mp hc)) with ⟨g, hg, hgu⟩
  refine ⟨g, ?_, ?_⟩
  · rw [readOutput, if_neg (by simp [hne, hne2]), hg]
    rfl
  · intro t i j hu
    exact hgu t i j (fun c hc => hu c (List.mem_range.mp hc))

/-- C7 witness: two pixels at latitudes 0 and 1, all output files present with
constant value 5: the read succeeds and every unmapped grid cell stays at the
sentinel. -/
theorem C7_witness :
    ∃ g, readOutput [0, 1] [0, 0] 1 (-9999) (fun _ => some (fun _ => 5)) =
        Except.ok (some g) ∧
      ∀ t i j, (∀ c, c < ([0, 1] : List ℚ).length →
          ¬(i = cellRow [0, 1] 1 (([0, 1] : List ℚ).getD c 0) ∧
            j = cellCol [0, 0] 1 (([0, 0] : List ℚ).getD c 0))) →
        g t i j = -9999 :=
  C7_sentinel_for_unmapped_cells [0, 1] [0, 0] 1 (-9999) (fun _ => some (fun _ => 5))
    rfl rfl (fun c _ => by simp)

/-- C5: the tile-id reconciliation `((id + ntiles) % ntiles) + 1` of
`VIC.writeToDB`, applied to incoming tile ids that are a permutation of a
contiguous range of length `ntiles`, is a bijection onto the set 1..ntiles:
the images are pairwise distinct and cover exactly that interval. -/
theorem C5_reconcile_bijection (n a : Nat) (ids : List Nat) (hn : 0 < n)
    (hperm : ids.Perm ((List.range n).map (fun k => a + k))) :
    (ids.map (reconcileTile n)).Nodup ∧
      (ids.map (reconcileTile n)).toFinset = Finset.Icc 1 n := by
  have hmap : (ids.map (reconcileTile n)).Perm
      (((List.range n).map (fun k => a + k)).map (reconcileTile n)) := hperm.map _
  have hcan : ((List.range n).map (fun k => a + k)).map (reconcileTile n)
      = (List.range n).map (fun k => (a + k) % n + 1) := by
    simp only [List.map_map]
    refine List.map_congr_left ?_
    intro k _
    simp [reconcileTile, Nat.add_mod_right]
  have hinj : ∀ x ∈ List.range n, ∀ y ∈ List.range n,
      (a + x) % n + 1 = (a + y) % n + 1 → x = y := by
    intro x hx y hy hxy
    have hx' : x < n := List.mem_range.mp hx
    have hy' : y < n := List.mem_range.mp hy
    have hmod : (a + x) % n = (a + y) % n := by omega
    have hcancel : x % n = y % n := Nat.ModEq.add_left_cancel' a hmod
    rwa [Nat.mod_eq_of_lt hx', Nat.mod_eq_of_lt hy'] at hcancel
  have hnd : ((List.range n).map (fun k => (a + k) % n + 1)).Nodup :=
    (List.nodup_range n).map_on hinj
  have hsub : ((List.range n).map (fun k => (a + k) % n + 1)).toFinset ⊆ Finset.Icc 1 n := by
    intro x hx
    rcases List.mem_map.mp (List.mem_toFinset.mp hx) with ⟨k, _, rfl⟩
    have : (a + k) % n < n := Nat.mod_lt _ hn
    exact Finset.mem_Icc.mpr (by omega)
  have hcard : ((List.range n).map (fun k => (a + k) % n + 1)).toFinset.card = n := by
    rw [List.toFinset_card_of_nodup hnd, List.length_map, List.length_range]
  have hfin : ((List.range n).map (fun k => (a + k) % n + 1)).toFinset = Finset.Icc 1 n := by
    refine Finset.eq_of_subset_of_card_le hsub ?_
    rw [hcard, Nat.card_Icc]
    omega
  constructor
  · exact hmap.nodup_iff.mpr (hcan ▸ hnd)
  · rw [List.toFinset_eq_of_perm _ _ hmap, hcan, hfin]

/-- C5 witness: three tiles with incoming ids [6, 7, 5], a permutation of the
contiguous range 5..7, are mapped bijectively onto 1..3. -/
theorem C5_witness :
    (0 < 3 ∧ [6, 7, 5].Perm ((List.range 3).map (fun k => 5 + k))) ∧
      ([6, 7, 5].map (reconcileTile 3)).Nodup ∧
      ([6, 7, 5].map (reconcileTile 3)).toFinset = Finset.Icc 1 3 :=
  ⟨⟨by decide, by decide⟩, C5_reconcile_bijection 3 5 [6, 7, 5] (by decide) (by decide)⟩

/-- C8: if any of the precipitation, temperature or wind data sources is
missing from the options, `VIC.getForcings` aborts with the reported message
(`log.error` followed by `sys.exit()`): a fatal configuration error that is
neither retried nor recovered from. -/
theorem C8_missing_forcing_fatal (opts : List (String × String))
    (h : lookupOpt opts "precip" = none ∨ lookupOpt opts "temperature" = none ∨
      lookupOpt opts "wind" = none) :
    getForcingsSelect opts = Except.error "No data source provided for VIC forcings" := by
  rcases hp : lookupOpt opts "precip" with _ | p <;>
    rcases ht : lookupOpt opts "temperature" with _ | t <;>
      rcases hw : lookupOpt opts "wind" with _ | w <;>
        simp_all [getForcingsSelect]

/-- C8 witness: options naming only precipitation and temperature sources (no
wind dataset) make the forcing fetch abort with the reported message. -/
theorem C8_witness :
    (lookupOpt [("precip", "chirps"), ("temperature", "ncep")] "precip" = none ∨
      lookupOpt [("precip", "chirps"), ("temperature", "ncep")] "temperature" = none ∨
      lookupOpt [("precip", "chirps"), ("temperature", "ncep")] "wind" = none) ∧
      getForcingsSelect [("precip", "chirps"), ("temperature", "ncep")] =
        Except.error "No data source provided for VIC forcings" :=
  ⟨by decide, C8_missing_forcing_fatal _ (by decide)⟩

end RHEAS
